import Mathlib

/-!
Verification of the Enterprise-Document-Intelligence-System backend.

This file shallowly embeds the pure control logic of the Python backend
(`backend/app/services/*.py`) in Lean and proves or refutes the stated
properties of the chunker, the vector-store adapter, the retrieval
orchestrator and the source formatter.  Texts are modelled as `List Char`
(Python string slicing is list slicing), floats as `ℚ`, Python dicts as
association lists with first-occurrence lookup, and fallible calls as
`Except`/`Option` values.
-/

/-- One chunk produced by `DocumentProcessor.chunk_text`: the metadata dict
built in the loop body (`chunk_id`, `start_char`, `end_char`, `text`). -/
structure TextChunk where
  chunk_id : Nat
  start_char : Nat
  end_char : Nat
  text : List Char
deriving Repr, DecidableEq

/-- The `while start < len(text)` loop of `DocumentProcessor.chunk_text`
(document_processor.py lines 75-98).  `end = start + chunk_size`; the chunk
text is `text[start:end]`; the recorded `end_char` is `end`, not clamped to
the text length; the window then advances by `end - chunk_overlap`.
The structural `fuel` argument caps the number of iterations so the
definition is total; `chunk_text` below passes `text.length`, which is
enough whenever `chunk_overlap < chunk_size` because `start` strictly
increases on every iteration (the Python loop does not terminate when
`chunk_overlap >= chunk_size`, a regime outside every claim). -/
def chunkTextGo (chunkSize chunkOverlap : Nat) (text : List Char) :
    Nat → Nat → Nat → List TextChunk
  | 0, _, _ => []
  | fuel + 1, start, chunkId =>
    if start < text.length then
      { chunk_id := chunkId, start_char := start, end_char := start + chunkSize,
        text := (text.drop start).take chunkSize } ::
        chunkTextGo chunkSize chunkOverlap text fuel
          ((start + chunkSize) - chunkOverlap) (chunkId + 1)
    else []

/-- `DocumentProcessor.chunk_text` (document_processor.py lines 57-100):
returns `[]` on empty input, otherwise runs the sliding-window loop from
`start = 0`, `chunk_id = 0`.  The extra caller-supplied metadata dict merged
into each chunk does not affect the four positional fields modelled here. -/
def chunk_text (chunkSize chunkOverlap : Nat) (text : List Char) : List TextChunk :=
  if text.isEmpty then []
  else chunkTextGo chunkSize chunkOverlap text text.length 0 0

/-- Closed form of the chunking loop: with step `d = W - O > 0` and enough
fuel, the loop starting at `start` emits one chunk for every window start
`start + i * d` that lies inside the text. -/
lemma chunkTextGo_eq_map (W O : Nat) (text : List Char) (hWO : O < W) :
    ∀ fuel start chunkId, text.length - start ≤ fuel * (W - O) →
      chunkTextGo W O text fuel start chunkId =
        (List.range ((text.length - start + (W - O) - 1) / (W - O))).map
          (fun i =>
            { chunk_id := chunkId + i, start_char := start + i * (W - O),
              end_char := start + i * (W - O) + W,
              text := (text.drop (start + i * (W - O))).take W }) := by
  have hd : 0 < W - O := Nat.sub_pos_of_lt hWO
  intro fuel
  induction fuel with
  | zero =>
    intro start chunkId h
    simp only [Nat.zero_mul, Nat.le_zero] at h
    rw [h, Nat.div_eq_of_lt (by omega : 0 + (W - O) - 1 < W - O)]
    simp [chunkTextGo]
  | succ fuel ih =>
    intro start chunkId h
    by_cases hs : start < text.length
    · have hx : 1 ≤ text.length - start := by omega
      have hn : (text.length - start + (W - O) - 1) / (W - O)
          = (text.length - (start + (W - O)) + (W - O) - 1) / (W - O) + 1 := by
        have h1 : text.length - start + (W - O) - 1
            = (text.length - start - 1) + (W - O) := by omega
        rw [h1, Nat.add_div_right _ hd]
        rcases Nat.lt_or_ge (text.length - start) (W - O) with hlt | hge
        · have h2 : text.length - (start + (W - O)) = 0 := by omega
          rw [h2, Nat.div_eq_of_lt (by omega), Nat.div_eq_of_lt (by omega)]
        · have h2 : text.length - (start + (W - O)) + (W - O) - 1
              = text.length - start - 1 := by omega
          rw [h2]
      have hfuel : text.length - (start + (W - O)) ≤ fuel * (W - O) := by
        have hsm : (fuel + 1) * (W - O) = fuel * (W - O) + (W - O) := by ring
        omega
      have hadv : (start + W) - O = start + (W - O) := by omega
      rw [chunkTextGo]
      simp only [hs, if_true, hadv, ih ((start + (W - O))) (chunkId + 1) hfuel, hn]
      rw [List.range_succ_eq_map]
      simp only [List.map_cons, List.map_map]
      refine List.cons_eq_cons.mpr ⟨by simp, ?_⟩
      apply List.map_congr_left
      intro i _
      have e1 : chunkId + 1 + i = chunkId + (i + 1) := by omega
      have e2 : start + (W - O) + i * (W - O) = start + (i + 1) * (W - O) := by ring
      simp only [Function.comp_apply, Nat.succ_eq_add_one, e1, e2]
    · have h0 : text.length - start = 0 := by omega
      rw [chunkTextGo]
      simp only [hs, if_false]
      rw [h0, Nat.div_eq_of_lt (by omega : 0 + (W - O) - 1 < W - O)]
      simp

/-- Closed form of `chunk_text`: one chunk per window start `i * (W - O)`
below the text length. -/
lemma chunk_text_eq_map (W O : Nat) (hWO : O < W) (text : List Char) :
    chunk_text W O text =
      (List.range ((text.length + (W - O) - 1) / (W - O))).map
        (fun i =>
          { chunk_id := i, start_char := i * (W - O),
            end_char := i * (W - O) + W,
            text := (text.drop (i * (W - O))).take W }) := by
  have hd : 0 < W - O := Nat.sub_pos_of_lt hWO
  unfold chunk_text
  by_cases he : text.isEmpty
  · have h0 : text.length = 0 := by
      cases text with
      | nil => rfl
      | cons a l => simp [List.isEmpty] at he
    rw [if_pos he, h0, Nat.div_eq_of_lt (by omega : 0 + (W - O) - 1 < W - O)]
    simp
  · rw [if_neg he,
      chunkTextGo_eq_map W O text hWO text.length 0 0
        (by
          have : text.length * 1 ≤ text.length * (W - O) :=
            Nat.mul_le_mul_left _ hd
          omega)]
    simp

/-- Number of chunks: index `i` is emitted exactly when its window start
`i * (W - O)` is still inside the text. -/
lemma chunk_text_length_iff (W O : Nat) (hWO : O < W) (text : List Char) (i : Nat) :
    i < (chunk_text W O text).length ↔ i * (W - O) < text.length := by
  have hd : 0 < W - O := Nat.sub_pos_of_lt hWO
  rw [chunk_text_eq_map W O hWO text, List.length_map, List.length_range]
  by_cases h0 : text.length = 0
  · rw [h0, Nat.div_eq_of_lt (by omega : 0 + (W - O) - 1 < W - O)]
    omega
  · constructor
    · intro h
      have h1 : i + 1 ≤ (text.length + (W - O) - 1) / (W - O) := h
      have h2 : (i + 1) * (W - O) ≤ text.length + (W - O) - 1 :=
        (Nat.le_div_iff_mul_le hd).mp h1
      have h3 : (i + 1) * (W - O) = i * (W - O) + (W - O) := by ring
      omega
    · intro h
      have h3 : (i + 1) * (W - O) = i * (W - O) + (W - O) := by ring
      have h2 : (i + 1) * (W - O) ≤ text.length + (W - O) - 1 := by omega
      exact (Nat.le_div_iff_mul_le hd).mpr h2

/-- The chunk at index `i` in closed form. -/
lemma chunk_text_getElem (W O : Nat) (hWO : O < W) (text : List Char) (i : Nat)
    (h : i < (chunk_text W O text).length) :
    (chunk_text W O text)[i] =
      { chunk_id := i, start_char := i * (W - O), end_char := i * (W - O) + W,
        text := (text.drop (i * (W - O))).take W } := by
  simp only [chunk_text_eq_map W O hWO text, List.getElem_map, List.getElem_range]

/-- The full sliding-window contract of `chunk_text` for window `W` and
overlap `O`: empty input gives no chunks; a chunk is emitted for index `i`
exactly while its window start `i * (W - O)` is inside the text; chunk `i`
carries `chunk_id = i`, `start_char = i * (W - O)` and the text slice
`text[start : start + W]`; consecutive windows overlap by exactly `O`
positions (`end_char` of one chunk is `O` past the `start_char` of the
next); and every character position of the text falls inside some emitted
chunk's text. -/
def ChunkAlgorithmSpec (W O : Nat) (text : List Char) : Prop :=
  (text = [] → chunk_text W O text = []) ∧
  (∀ i, i < (chunk_text W O text).length ↔ i * (W - O) < text.length) ∧
  (∀ i, ∀ h : i < (chunk_text W O text).length,
    ((chunk_text W O text)[i]).chunk_id = i ∧
    ((chunk_text W O text)[i]).start_char = i * (W - O) ∧
    ((chunk_text W O text)[i]).text = (text.drop (i * (W - O))).take W) ∧
  (∀ i, ∀ h1 : i < (chunk_text W O text).length,
    ∀ h2 : i + 1 < (chunk_text W O text).length,
    ((chunk_text W O text)[i]).end_char
      = ((chunk_text W O text)[i + 1]).start_char + O) ∧
  (∀ p, p < text.length → ∃ i, ∃ h : i < (chunk_text W O text).length,
    ((chunk_text W O text)[i]).start_char ≤ p ∧
    p - ((chunk_text W O text)[i]).start_char < ((chunk_text W O text)[i]).text.length)

/-- C5: `chunk_text` returns the empty sequence on empty input and otherwise
follows the sliding-window algorithm — chunk `i` starts at `i * (W - O)`
with text `text[start : start + W]`, chunks are emitted exactly while
`start < len(text)`, consecutive windows overlap by exactly `O`, and the
chunks together cover the whole text. -/
theorem chunk_text_sliding_window (W O : Nat) (hWO : O < W) (text : List Char) :
    ChunkAlgorithmSpec W O text := by
  have hd : 0 < W - O := Nat.sub_pos_of_lt hWO
  refine ⟨?_, chunk_text_length_iff W O hWO text, ?_, ?_, ?_⟩
  · intro h
    rw [h]
    simp [chunk_text]
  · intro i h
    rw [chunk_text_getElem W O hWO text i h]
    exact ⟨rfl, rfl, rfl⟩
  · intro i h1 h2
    rw [chunk_text_getElem W O hWO text i h1,
      chunk_text_getElem W O hWO text (i + 1) h2]
    have e : (i + 1) * (W - O) = i * (W - O) + (W - O) := by ring
    simp only
    omega
  · intro p hp
    have hstart : (p / (W - O)) * (W - O) ≤ p := Nat.div_mul_le_self p (W - O)
    have hlt : (p / (W - O)) * (W - O) < text.length := lt_of_le_of_lt hstart hp
    have hmem : p / (W - O) < (chunk_text W O text).length :=
      (chunk_text_length_iff W O hWO text _).mpr hlt
    refine ⟨p / (W - O), hmem, ?_⟩
    rw [chunk_text_getElem W O hWO text _ hmem]
    have hdm := Nat.div_add_mod p (W - O)
    have hmod : p % (W - O) < W - O := Nat.mod_lt _ hd
    have hcomm : (W - O) * (p / (W - O)) = (p / (W - O)) * (W - O) :=
      Nat.mul_comm _ _
    simp only [List.length_take, List.length_drop, lt_min_iff]
    omega

/-- Witness for C5 at the configured defaults `W = 1000`, `O = 200`. -/
theorem chunk_text_sliding_window_witness :
    200 < 1000 ∧ ChunkAlgorithmSpec 1000 200 ['d', 'o', 'c'] :=
  ⟨by decide, chunk_text_sliding_window 1000 200 (by decide) ['d', 'o', 'c']⟩

/-- Counterexample to C3 as stated: a 900-character text satisfies
`0 < len(T) ≤ W = 1000` under the configured defaults, yet `chunk_text`
emits two chunks, not one — after the first full window the next start is
`W - O = 800 < 900`, so a second (overlap-tail) chunk is emitted. -/
theorem chunk_text_single_chunk_cex :
    0 < (List.replicate 900 'a').length ∧
    (List.replicate 900 'a').length ≤ 1000 ∧
    (chunk_text 1000 200 (List.replicate 900 'a')).length = 2 ∧
    (chunk_text 1000 200 (List.replicate 900 'a')).length ≠ 1 := by
  have hl : (chunk_text 1000 200 (List.replicate 900 'a')).length = 2 := by
    rw [chunk_text_eq_map 1000 200 (by norm_num) _, List.length_map,
      List.length_range, List.length_replicate]
  refine ⟨?_, ?_, hl, by omega⟩
  · rw [List.length_replicate]
    norm_num
  · rw [List.length_replicate]
    norm_num

/-- C3 (amended): for every text with `0 < len(T) ≤ W - O`, `chunk_text`
yields exactly one chunk whose text is the whole text (the second window
start `W - O` already falls outside the text). -/
theorem chunk_text_single_chunk (W O : Nat) (hWO : O < W) (text : List Char)
    (h1 : text ≠ []) (h2 : text.length ≤ W - O) :
    chunk_text W O text =
      [{ chunk_id := 0, start_char := 0, end_char := W, text := text }] := by
  have hd : 0 < W - O := Nat.sub_pos_of_lt hWO
  have hlen : 0 < text.length := List.length_pos.mpr h1
  rw [chunk_text_eq_map W O hWO text]
  have hn : (text.length + (W - O) - 1) / (W - O) = 1 :=
    Nat.div_eq_of_lt_le (by omega) (by omega)
  rw [hn]
  have hr1 : List.range 1 = [0] := rfl
  rw [hr1]
  simp only [List.map_cons, List.map_nil, Nat.zero_mul, Nat.zero_add,
    List.drop_zero]
  rw [List.take_of_length_le (le_trans h2 (Nat.sub_le W O))]

/-- Witness for the amended C3 on a 2-character text. -/
theorem chunk_text_single_chunk_witness :
    200 < 1000 ∧ (['h', 'i'] : List Char) ≠ [] ∧
    (['h', 'i'] : List Char).length ≤ 1000 - 200 ∧
    chunk_text 1000 200 ['h', 'i'] =
      [{ chunk_id := 0, start_char := 0, end_char := 1000, text := ['h', 'i'] }] :=
  ⟨by decide, by decide, by decide,
    chunk_text_single_chunk 1000 200 (by decide) ['h', 'i'] (by decide) (by decide)⟩

/-- Counterexample to C4 as stated: on a 2-character text the single emitted
chunk records `end_char = 1000`, which is not a character position within
the source text (`end_char > len(text)`) — the code stores
`end = start + chunk_size` without clamping. -/
theorem chunk_offsets_cex :
    ¬ (∀ c ∈ chunk_text 1000 200 ['h', 'i'],
        c.end_char ≤ (['h', 'i'] : List Char).length) := by
  decide

/-- C4 (amended): every chunk satisfies `end_char = start_char + W` (every
chunk, including the final one, whose recorded `end_char` may exceed the
text length), `start_char` is a position inside the text, and the chunk's
text has length `min W (len - start_char)` — so only trailing chunks carry
text shorter than `W`. -/
theorem chunk_offsets_window (W O : Nat) (hWO : O < W) (text : List Char) :
    ∀ c ∈ chunk_text W O text,
      c.end_char = c.start_char + W ∧
      c.start_char < text.length ∧
      c.text.length = min W (text.length - c.start_char) := by
  intro c hc
  have hlen := hc
  rw [chunk_text_eq_map W O hWO text] at hc
  simp only [List.mem_map, List.mem_range] at hc
  obtain ⟨i, hi, rfl⟩ := hc
  have hmem : i < (chunk_text W O text).length := by
    rw [chunk_text_eq_map W O hWO text, List.length_map, List.length_range]
    exact hi
  refine ⟨rfl, (chunk_text_length_iff W O hWO text i).mp hmem, ?_⟩
  simp [List.length_take, List.length_drop]

/-- Witness for the amended C4 on a 2-character text. -/
theorem chunk_offsets_window_witness :
    200 < 1000 ∧
    ({ chunk_id := 0, start_char := 0, end_char := 1000, text := ['h', 'i'] } :
        TextChunk) ∈ chunk_text 1000 200 ['h', 'i'] ∧
    (({ chunk_id := 0, start_char := 0, end_char := 1000, text := ['h', 'i'] } :
        TextChunk).end_char
      = ({ chunk_id := 0, start_char := 0, end_char := 1000, text := ['h', 'i'] } :
        TextChunk).start_char + 1000 ∧
    ({ chunk_id := 0, start_char := 0, end_char := 1000, text := ['h', 'i'] } :
        TextChunk).start_char < (['h', 'i'] : List Char).length ∧
    ({ chunk_id := 0, start_char := 0, end_char := 1000, text := ['h', 'i'] } :
        TextChunk).text.length
      = min 1000 ((['h', 'i'] : List Char).length -
        ({ chunk_id := 0, start_char := 0, end_char := 1000, text := ['h', 'i'] } :
          TextChunk).start_char)) :=
  ⟨by decide, by decide,
    chunk_offsets_window 1000 200 (by decide) ['h', 'i'] _ (by decide)⟩

/-- A metadata value as stored in Chroma record metadata: the repository
stores strings (filename, user_id, file_type, text) and ints (chunk_id,
start_char, end_char, total_chars). -/
inductive MVal where
  | s (v : String)
  | n (v : Nat)
deriving Repr, DecidableEq

/-- A Python dict modelled as an association list; earlier entries shadow
later ones under lookup. -/
abbrev PyDict := List (String × MVal)

/-- `d.get(k)` of a Python dict. -/
def dictGet (d : PyDict) (k : String) : Option MVal :=
  d.lookup k

/-- `d.get(k, default)` of a Python dict. -/
def dictGetD (d : PyDict) (k : String) (v : MVal) : MVal :=
  (d.lookup k).getD v

/-- `base.update(upd)` / `{**base, k: v}`: entries of `upd` override entries
of `base`; the keys of `base` not reassigned keep their values. -/
def dictUpdate (base upd : PyDict) : PyDict :=
  upd ++ base.filter (fun kv => (upd.lookup kv.1).isNone)

/-- `str(v)` as applied by the f-string that builds record ids. -/
def mvalStr : MVal → String
  | .s v => v
  | .n v => toString v

/-- One record persisted in the Chroma collection "documents":
`(id, embedding, document, metadata)`. -/
structure StoredRecord where
  id : String
  embedding : List ℚ
  document : String
  metadata : PyDict
deriving Repr, DecidableEq

abbrev Collection := List StoredRecord

/-- A record matches a Chroma `where` dict when its metadata carries every
key of the dict with exactly the given value (conjunctive equality filter,
the semantics of the single- and multi-key `where` dicts this adapter
passes). -/
def matchesWhere (w : PyDict) (m : PyDict) : Bool :=
  w.all (fun kv => m.lookup kv.1 == some kv.2)

/-- The external chromadb `Collection.add` for one record, per the library's
documented duplicate handling: an id already present in the collection is
left untouched (the library logs "Add of existing embedding ID" and skips
the insert — its native add is insert-only, not upsert); a new id is
appended. -/
def collectionAddOne (c : Collection) (r : StoredRecord) : Collection :=
  if c.any (fun x => x.id == r.id) then c else c ++ [r]

/-- The external chromadb `Collection.add` over a batch, record by record. -/
def collectionAdd (c : Collection) (rs : List StoredRecord) : Collection :=
  rs.foldl collectionAddOne c

/-- One element of the `chunks` argument of
`VectorDBService.store_documents`: a dict whose `"metadata"` entry is the
chunk metadata dict (the only key the function reads). -/
structure ChunkDict where
  metadata : PyDict
deriving Repr, DecidableEq

/-- The record id built at vector_db_service.py line 55:
`f"{user_id}_{filename}_{chunk_id}"` with `filename` defaulting to `"doc"`
and `chunk_id` defaulting to the enumeration index `i`. -/
def recordId (user_id : String) (chunk : ChunkDict) (i : Nat) : String :=
  user_id ++ "_" ++ mvalStr (dictGetD chunk.metadata "filename" (.s "doc"))
    ++ "_" ++ mvalStr (dictGetD chunk.metadata "chunk_id" (.n i))

/-- The record assembled for chunk `i` in the loop of `store_documents`
(lines 53-66): id, text (`chunk['metadata']['text']`, a KeyError — `none`
here — when absent), and metadata `{**chunk['metadata'], "user_id": user_id}`. -/
def entryOf (user_id : String) (i : Nat) (chunk : ChunkDict) (emb : List ℚ) :
    Option StoredRecord :=
  match dictGet chunk.metadata "text" with
  | none => none
  | some t =>
    some { id := recordId user_id chunk i, embedding := emb,
           document := mvalStr t,
           metadata := dictUpdate chunk.metadata [("user_id", .s user_id)] }

/-- The enumeration loop of `store_documents`, pairing chunk `i` with
embedding `i`. -/
def buildEntries (user_id : String) :
    Nat → List ChunkDict → List (List ℚ) → Option (List StoredRecord)
  | _, [], _ => some []
  | _, _ :: _, [] => some []
  | i, ch :: chs, e :: es =>
    match entryOf user_id i ch e, buildEntries user_id (i + 1) chs es with
    | some r, some rs => some (r :: rs)
    | _, _ => none

/-- `VectorDBService.store_documents` (vector_db_service.py lines 36-74):
raises ValueError — `Except.error` — when the chunk and embedding counts
differ, before anything is prepared or written; otherwise builds the batch
and hands it to the store's native `add`. -/
def store_documents (chunks : List ChunkDict) (embeddings : List (List ℚ))
    (user_id : String) (c : Collection) : Except String Collection :=
  if chunks.length ≠ embeddings.length then
    Except.error "Chunks and embeddings count mismatch"
  else
    match buildEntries user_id 0 chunks embeddings with
    | none => Except.error "KeyError: text"
    | some entries => Except.ok (collectionAdd c entries)

/-- Application settings (config.py lines 49-53) with their defaults. -/
structure AppSettings where
  CHUNK_SIZE : Nat := 1000
  CHUNK_OVERLAP : Nat := 200
  TOP_K_RESULTS : Nat := 8
  TOP_K_COMPLEX : Nat := 12
deriving Repr, DecidableEq

/-- The global `settings` instance with environment defaults. -/
def defaultSettings : AppSettings := {}

/-- Insertion into a list kept in ascending order of `dist`. -/
def insertSorted (dist : StoredRecord → ℚ) (r : StoredRecord) :
    List StoredRecord → List StoredRecord
  | [] => [r]
  | x :: xs =>
    if dist r ≤ dist x then r :: x :: xs else x :: insertSorted dist r xs

/-- Sorting by ascending `dist` (the store returns nearest neighbours
first). -/
def sortByDist (dist : StoredRecord → ℚ) : List StoredRecord → List StoredRecord
  | [] => []
  | x :: xs => insertSorted dist x (sortByDist dist xs)

/-- The external chromadb `Collection.query` for one query embedding: the
records matching the `where` dict, in ascending order of the store's
distance to the query (abstracted as `dist`, since the embedder and the
distance computation are external services), truncated to `n_results`. -/
def collectionQuery (dist : StoredRecord → ℚ) (w : PyDict) (nResults : Nat)
    (c : Collection) : List StoredRecord :=
  (sortByDist dist (c.filter (fun r => matchesWhere w r.metadata))).take nResults

/-- One formatted search result (vector_db_service.py lines 111-116). -/
structure SearchHit where
  id : String
  text : String
  metadata : PyDict
  distance : Option ℚ
deriving Repr, DecidableEq

/-- The `where` dict built at vector_db_service.py lines 96-98: start from
`{"user_id": user_id}`, then `where.update(filter_dict)` when `filter_dict`
is truthy (neither `None` nor empty). -/
def effectiveWhere (user_id : String) (filter_dict : Option PyDict) : PyDict :=
  match filter_dict with
  | none => [("user_id", .s user_id)]
  | some fd =>
    if fd.isEmpty then [("user_id", .s user_id)]
    else dictUpdate [("user_id", .s user_id)] fd

/-- `VectorDBService.search` (lines 76-118): `top_k` defaults to
`settings.TOP_K_RESULTS` when `None`; the `where` filter is
`effectiveWhere`; the Chroma query result is formatted, `distance`
present only when the store returned distances (`distancesPresent`). -/
def search (dist : StoredRecord → ℚ) (distancesPresent : Bool)
    (st : AppSettings) (top_k : Option Nat) (user_id : String)
    (filter_dict : Option PyDict) (c : Collection) : List SearchHit :=
  let k := top_k.getD st.TOP_K_RESULTS
  (collectionQuery dist (effectiveWhere user_id filter_dict) k c).map (fun r =>
    { id := r.id, text := r.document, metadata := r.metadata,
      distance := if distancesPresent then some (dist r) else none })

lemma mem_insertSorted (dist : StoredRecord → ℚ) (r y : StoredRecord) :
    ∀ l, y ∈ insertSorted dist r l ↔ y = r ∨ y ∈ l := by
  intro l
  induction l with
  | nil => simp [insertSorted]
  | cons x xs ih =>
    rw [insertSorted]
    by_cases h : dist r ≤ dist x
    · simp [h]
    · simp only [h, if_false, List.mem_cons, ih]
      tauto

lemma mem_sortByDist (dist : StoredRecord → ℚ) (y : StoredRecord) :
    ∀ l, y ∈ sortByDist dist l ↔ y ∈ l := by
  intro l
  induction l with
  | nil => simp [sortByDist]
  | cons x xs ih =>
    rw [sortByDist, mem_insertSorted]
    simp [ih]

lemma matchesWhere_lookup {w m : PyDict} (h : matchesWhere w m = true)
    {kv : String × MVal} (hm : kv ∈ w) : m.lookup kv.1 = some kv.2 := by
  rw [matchesWhere, List.all_eq_true] at h
  exact beq_iff_eq.mp (h kv hm)

/-- Every hit of `search` comes from a collection record matching the
effective `where` dict. -/
lemma search_hit_source {dist : StoredRecord → ℚ} {dp : Bool}
    {st : AppSettings} {top_k : Option Nat} {uid : String}
    {fd : Option PyDict} {c : Collection} {hit : SearchHit}
    (h : hit ∈ search dist dp st top_k uid fd c) :
    ∃ r ∈ c,
      hit.metadata = r.metadata ∧
      matchesWhere (effectiveWhere uid fd) r.metadata = true := by
  simp only [search, collectionQuery] at h
  obtain ⟨r, hr, rfl⟩ := List.mem_map.mp h
  have hr2 := (mem_sortByDist dist r _).mp (List.mem_of_mem_take hr)
  have hr3 := List.mem_filter.mp hr2
  exact ⟨r, hr3.1, rfl, hr3.2⟩

lemma mem_collectionAddOne (c : Collection) (r0 y : StoredRecord)
    (h : y ∈ collectionAddOne c r0) : y ∈ c ∨ y = r0 := by
  rw [collectionAddOne] at h
  by_cases hc : c.any (fun x => x.id == r0.id)
  · rw [if_pos hc] at h
    exact Or.inl h
  · rw [if_neg hc] at h
    rcases List.mem_append.mp h with h1 | h1
    · exact Or.inl h1
    · exact Or.inr (List.mem_singleton.mp h1)

lemma subset_collectionAddOne (c : Collection) (r0 : StoredRecord) :
    c ⊆ collectionAddOne c r0 := by
  rw [collectionAddOne]
  by_cases hc : c.any (fun x => x.id == r0.id)
  · rw [if_pos hc]
    exact fun {a} h => h
  · rw [if_neg hc]
    exact List.subset_append_left _ _

lemma mem_collectionAdd :
    ∀ (rs : List StoredRecord) (c : Collection) (y : StoredRecord),
      y ∈ collectionAdd c rs → y ∈ c ∨ y ∈ rs := by
  intro rs
  induction rs with
  | nil => intro c y h; exact Or.inl h
  | cons r0 rest ih =>
    intro c y h
    rw [collectionAdd, List.foldl_cons] at h
    rcases ih _ _ h with h1 | h1
    · rcases mem_collectionAddOne c r0 y h1 with h2 | h2
      · exact Or.inl h2
      · exact Or.inr (by simp [h2])
    · exact Or.inr (List.mem_cons_of_mem _ h1)

lemma subset_collectionAdd :
    ∀ (rs : List StoredRecord) (c : Collection), c ⊆ collectionAdd c rs := by
  intro rs
  induction rs with
  | nil => intro c; exact fun {a} h => h
  | cons r0 rest ih =>
    intro c
    rw [collectionAdd, List.foldl_cons]
    exact fun {a} h => ih (collectionAddOne c r0) (subset_collectionAddOne c r0 h)

lemma id_mem_collectionAdd :
    ∀ (rs : List StoredRecord) (c : Collection) (e : StoredRecord), e ∈ rs →
      ∃ x ∈ collectionAdd c rs, x.id = e.id := by
  intro rs
  induction rs with
  | nil => intro c e h; cases h
  | cons r0 rest ih =>
    intro c e h
    rcases List.mem_cons.mp h with rfl | h1
    · rw [collectionAdd, List.foldl_cons]
      by_cases hc : c.any (fun x => x.id == e.id)
      · obtain ⟨x, hx, hid⟩ := List.any_eq_true.mp hc
        exact ⟨x, subset_collectionAdd rest _ (subset_collectionAddOne c e hx),
          beq_iff_eq.mp hid⟩
      · refine ⟨e, subset_collectionAdd rest _ ?_, rfl⟩
        rw [collectionAddOne, if_neg hc]
        simp
    · exact ih _ e h1

lemma collectionAdd_ignored :
    ∀ (rs : List StoredRecord) (c : Collection),
      (∀ e ∈ rs, ∃ x ∈ c, x.id = e.id) → collectionAdd c rs = c := by
  intro rs
  induction rs with
  | nil => intro c _; rfl
  | cons r0 rest ih =>
    intro c h
    obtain ⟨x, hx, hid⟩ := h r0 (by simp)
    have hone : collectionAddOne c r0 = c := by
      rw [collectionAddOne, if_pos]
      exact List.any_eq_true.mpr ⟨x, hx, beq_iff_eq.mpr hid⟩
    rw [collectionAdd, List.foldl_cons, hone]
    exact ih c (fun e he => h e (List.mem_cons_of_mem _ he))

lemma buildEntries_userid :
    ∀ (chs : List ChunkDict) (es : List (List ℚ)) (i : Nat) (uid : String)
      (entries : List StoredRecord),
      buildEntries uid i chs es = some entries →
      ∀ r ∈ entries, r.metadata.lookup "user_id" = some (.s uid) := by
  intro chs
  induction chs with
  | nil =>
    intro es i uid entries h r hr
    cases es <;> simp [buildEntries] at h <;> subst h <;> cases hr
  | cons ch rest ih =>
    intro es i uid entries h r hr
    cases es with
    | nil =>
      simp [buildEntries] at h
      subst h
      cases hr
    | cons e es' =>
      rw [buildEntries] at h
      cases he : entryOf uid i ch e with
      | none => rw [he] at h; cases h
      | some r0 =>
        cases hrest : buildEntries uid (i + 1) rest es' with
        | none => rw [he, hrest] at h; cases h
        | some rs =>
          rw [he, hrest] at h
          cases h
          rcases List.mem_cons.mp hr with rfl | h1
          · rw [entryOf] at he
            cases ht : dictGet ch.metadata "text" with
            | none => rw [ht] at he; cases he
            | some t =>
              rw [ht] at he
              cases he
              simp [dictUpdate, List.lookup]
          · exact ih es' (i + 1) uid rs hrest r h1

/-- Concrete records used in the concrete evaluations below. -/
def recA : StoredRecord :=
  { id := "A_f_0", embedding := [1], document := "docA",
    metadata := [("user_id", .s "A"), ("filename", .s "f"),
                 ("chunk_id", .n 0), ("text", .s "docA")] }

def recB : StoredRecord :=
  { id := "B_f_0", embedding := [1], document := "docB",
    metadata := [("user_id", .s "B"), ("filename", .s "f"),
                 ("chunk_id", .n 0), ("text", .s "docB")] }

def chunkA : ChunkDict :=
  ⟨[("filename", .s "f"), ("chunk_id", .n 0), ("text", .s "docA")]⟩

/-- Counterexample to C1 as stated: with tenants A and B co-resident, a
search invoked with `user_id = "A"` but `filter_dict = {"user_id": "B"}`
returns tenant B's record — `where.update(filter_dict)` lets the extra
filter overwrite the tenant tag, so the operation exposes another tenant's
records. -/
theorem tenant_isolation_cex :
    (search (fun _ => 0) true defaultSettings (some 5) "A"
        (some [("user_id", MVal.s "B")]) [recA, recB]).map
        (fun h => dictGet h.metadata "user_id") = [some (MVal.s "B")] ∧
    MVal.s "B" ≠ MVal.s "A" := by
  constructor
  · rfl
  · decide

/-- C1 (amended): provided the extra `filter_dict` does not itself bind the
key `"user_id"` (in particular for every in-repository caller, which passes
no `filter_dict`), `search` invoked for a tenant returns only hits whose
stored tenant tag equals that tenant; and every record `store_documents`
writes carries the tenant tag of the write (records in the resulting
collection are either pre-existing or tagged with the writing tenant). -/
theorem tenant_isolation_guarded :
    (∀ (dist : StoredRecord → ℚ) (dp : Bool) (st : AppSettings)
        (top_k : Option Nat) (uid : String) (fd : Option PyDict)
        (c : Collection),
      (∀ d, fd = some d → d.lookup "user_id" = none) →
      ∀ hit ∈ search dist dp st top_k uid fd c,
        hit.metadata.lookup "user_id" = some (.s uid)) ∧
    (∀ (chunks : List ChunkDict) (embs : List (List ℚ)) (uid : String)
        (c c' : Collection),
      store_documents chunks embs uid c = Except.ok c' →
      ∀ r ∈ c', r ∈ c ∨ r.metadata.lookup "user_id" = some (.s uid)) := by
  constructor
  · intro dist dp st top_k uid fd c hfd hit hmem
    obtain ⟨r, _, hmeta, hmatch⟩ := search_hit_source hmem
    rw [hmeta]
    have hkv : ("user_id", MVal.s uid) ∈ effectiveWhere uid fd := by
      cases fd with
      | none => simp [effectiveWhere]
      | some d =>
        by_cases hde : d.isEmpty
        · simp [effectiveWhere, hde]
        · simp only [effectiveWhere, if_neg hde, dictUpdate]
          refine List.mem_append.mpr (Or.inr (List.mem_filter.mpr ⟨by simp, ?_⟩))
          rw [hfd d rfl]
          rfl
    exact matchesWhere_lookup hmatch hkv
  · intro chunks embs uid c c' hok r hr
    rw [store_documents] at hok
    by_cases hlen : chunks.length ≠ embs.length
    · rw [if_pos hlen] at hok
      cases hok
    · rw [if_neg hlen] at hok
      cases hbe : buildEntries uid 0 chunks embs with
      | none => rw [hbe] at hok; cases hok
      | some entries =>
        rw [hbe] at hok
        cases hok
        rcases mem_collectionAdd entries c r hr with h1 | h1
        · exact Or.inl h1
        · exact Or.inr (buildEntries_userid chunks embs 0 uid entries hbe r h1)

/-- Witness for the amended C1: a tenant-A search over a store holding only
tenant A's record returns that record with tag A, and the record written by
`store_documents` for tenant A carries tag A. -/
theorem tenant_isolation_guarded_witness :
    ({ id := "A_f_0", text := "docA", metadata := recA.metadata,
        distance := some 0 } : SearchHit).metadata.lookup "user_id"
        = some (MVal.s "A") ∧
    (recA ∈ ([] : Collection) ∨
      recA.metadata.lookup "user_id" = some (MVal.s "A")) :=
  ⟨tenant_isolation_guarded.1 (fun _ => 0) true defaultSettings (some 5) "A"
      none [recA] (fun d h => Option.noConfusion h)
      { id := "A_f_0", text := "docA", metadata := recA.metadata,
        distance := some 0 } (by decide),
    tenant_isolation_guarded.2 [chunkA] [[1]] "A" [] [recA] (by rfl)
      recA (by decide)⟩

def cexChunkOld : ChunkDict :=
  ⟨[("filename", .s "f"), ("chunk_id", .n 0), ("text", .s "old")]⟩

def cexChunkNew : ChunkDict :=
  ⟨[("filename", .s "f"), ("chunk_id", .n 0), ("text", .s "new")]⟩

/-- The collection after storing `cexChunkOld` for tenant T. -/
def cexCol : Collection :=
  [{ id := "T_f_0", embedding := [1], document := "old",
     metadata := [("user_id", .s "T"), ("filename", .s "f"),
                  ("chunk_id", .n 0), ("text", .s "old")] }]

/-- Counterexample to C2 as stated: storing the same
`(tenant, filename, chunk_index)` triple a second time with different text
does NOT replace the prior record — `store_documents` calls the store's
native insert-only `add`, which skips an existing id, so the collection
still holds the first write's text `"old"`, not `"new"`. -/
theorem store_upsert_cex :
    store_documents [cexChunkOld] [[(1 : ℚ)]] "T" [] = Except.ok cexCol ∧
    store_documents [cexChunkNew] [[(1 : ℚ)]] "T" cexCol = Except.ok cexCol ∧
    cexCol.map StoredRecord.document = ["old"] ∧
    dictGet cexChunkNew.metadata "text" = some (.s "new") ∧
    recordId "T" cexChunkOld 0 = recordId "T" cexChunkNew 0 ∧
    ("old" : String) ≠ "new" := by
  refine ⟨rfl, rfl, rfl, rfl, rfl, by decide⟩

/-- C2 (amended): the record id is a deterministic function of
`(tenant_id, filename, chunk_index)` alone; a repeat write of the same batch
is ignored by the store's insert-only `add` (each id already being present),
so the store — and in particular its record count — is idempotent across
repeated uploads of the same document, but the prior records are retained
unchanged rather than replaced. -/
theorem store_id_deterministic_idempotent :
    (∀ (uid : String) (ch : ChunkDict) (i : Nat) (fn : String) (cid : Nat),
      dictGet ch.metadata "filename" = some (.s fn) →
      dictGet ch.metadata "chunk_id" = some (.n cid) →
      recordId uid ch i = uid ++ "_" ++ fn ++ "_" ++ toString cid) ∧
    (∀ (chunks : List ChunkDict) (embs : List (List ℚ)) (uid : String)
        (c c' : Collection),
      store_documents chunks embs uid c = Except.ok c' →
      store_documents chunks embs uid c' = Except.ok c') := by
  constructor
  · intro uid ch i fn cid hfn hcid
    rw [recordId, dictGetD, dictGetD]
    rw [dictGet] at hfn hcid
    rw [hfn, hcid]
    rfl
  · intro chunks embs uid c c' hok
    rw [store_documents] at hok ⊢
    by_cases hlen : chunks.length ≠ embs.length
    · rw [if_pos hlen] at hok
      cases hok
    · rw [if_neg hlen] at hok ⊢
      cases hbe : buildEntries uid 0 chunks embs with
      | none =>
        rw [hbe] at hok
        cases hok
      | some entries =>
        rw [hbe] at hok
        have hok2 : Except.ok (collectionAdd c entries) = Except.ok c' := hok
        cases hok2
        have hign : collectionAdd (collectionAdd c entries) entries
            = collectionAdd c entries :=
          collectionAdd_ignored entries (collectionAdd c entries)
            (fun e he => id_mem_collectionAdd entries c e he)
        exact congrArg Except.ok hign

/-- Witness for the amended C2: the deterministic id of `cexChunkOld` under
tenant T, and idempotence of the concrete repeat write. -/
theorem store_id_deterministic_idempotent_witness :
    recordId "T" cexChunkOld 0 = "T" ++ "_" ++ "f" ++ "_" ++ toString 0 ∧
    store_documents [cexChunkOld] [[(1 : ℚ)]] "T" cexCol = Except.ok cexCol :=
  ⟨store_id_deterministic_idempotent.1 "T" cexChunkOld 0 "f" 0 rfl rfl,
    store_id_deterministic_idempotent.2 [cexChunkOld] [[(1 : ℚ)]] "T" [] cexCol
      rfl⟩

/-- C10: when the chunk and embedding counts differ, `store_documents`
raises (`Except.error`) with the mismatch message before anything is
prepared or written — no batch entry is even constructed, so the store is
left exactly as it was (the call produces no successor collection). -/
theorem store_documents_mismatch_atomic (chunks : List ChunkDict)
    (embs : List (List ℚ)) (uid : String) (c : Collection)
    (h : chunks.length ≠ embs.length) :
    store_documents chunks embs uid c
        = Except.error "Chunks and embeddings count mismatch" ∧
    ∀ c', store_documents chunks embs uid c ≠ Except.ok c' := by
  rw [store_documents, if_pos h]
  exact ⟨rfl, fun c' hc => Except.noConfusion hc⟩

/-- Witness for C10: one chunk against zero embeddings errors out. -/
theorem store_documents_mismatch_atomic_witness :
    ([chunkA].length ≠ ([] : List (List ℚ)).length) ∧
    (store_documents [chunkA] [] "A" []
        = Except.error "Chunks and embeddings count mismatch" ∧
      ∀ c', store_documents [chunkA] [] "A" [] ≠ Except.ok c') :=
  ⟨by decide, store_documents_mismatch_atomic [chunkA] [] "A" [] (by decide)⟩

/-- The persisted store together with fault switches for its two underlying
operations; a raised exception in chromadb `get` / `delete` is modelled by
the corresponding flag (the spec treats each store call as atomic: a failed
call leaves the records unchanged). -/
structure StoreState where
  records : Collection
  getFails : Bool := false
  deleteFails : Bool := false
deriving Repr, DecidableEq

/-- The external chromadb `Collection.get(where=..., include=[])`: the ids
of every record matching the `where` dict. -/
def collectionGet (s : StoreState) (w : PyDict) : Except String (List String) :=
  if s.getFails then Except.error "chroma get failed"
  else
    Except.ok
      ((s.records.filter (fun r => matchesWhere w r.metadata)).map
        (fun r => r.id))

/-- The external chromadb `Collection.delete(ids=...)`: removes every record
whose id is listed. -/
def collectionDelete (s : StoreState) (ids : List String) :
    Except String StoreState :=
  if s.deleteFails then Except.error "chroma delete failed"
  else
    Except.ok
      { s with records := s.records.filter (fun r => !(ids.contains r.id)) }

/-- The `where` dict of `delete_documents` (vector_db_service.py lines
131-133): `{"user_id": user_id}` plus — only when `filename` is truthy, i.e.
neither `None` nor `""` — a `"filename"` entry. -/
def deleteWhere (user_id : String) (filename : Option String) : PyDict :=
  match filename with
  | some fn =>
    if fn = "" then [("user_id", .s user_id)]
    else [("user_id", .s user_id), ("filename", .s fn)]
  | none => [("user_id", .s user_id)]

/-- `VectorDBService.delete_documents` (vector_db_service.py lines 124-147):
resolves the matching ids with `get`, returns 0 when none match, otherwise
deletes by id and returns the count; the whole body is wrapped in
`try/except` returning 0 and leaving the store as it was. -/
def delete_documents (s : StoreState) (user_id : String)
    (filename : Option String) : StoreState × Nat :=
  match collectionGet s (deleteWhere user_id filename) with
  | .error _ => (s, 0)
  | .ok ids =>
    if ids.isEmpty then (s, 0)
    else
      match collectionDelete s ids with
      | .error _ => (s, 0)
      | .ok s2 => (s2, ids.length)

/-- Deleting by the ids resolved from a filter removes exactly the records
matching the filter, provided record ids are unique in the collection. -/
lemma filter_resolved_ids (c : Collection)
    (hnd : (c.map (fun r => r.id)).Nodup) (P : StoredRecord → Bool) :
    c.filter
        (fun r => !(((c.filter P).map (fun r => r.id)).contains r.id))
      = c.filter (fun r => !(P r)) := by
  apply List.filter_congr
  intro r hr
  congr 1
  by_cases hp : P r = true
  · have h1 : r ∈ c.filter P := List.mem_filter.mpr ⟨hr, hp⟩
    have h2 : r.id ∈ (c.filter P).map (fun r => r.id) :=
      List.mem_map_of_mem _ h1
    rw [hp, List.contains, List.elem_iff.mpr h2]
  · rw [eq_false_of_ne_true hp]
    by_cases hc : ((c.filter P).map (fun r => r.id)).contains r.id = true
    · exfalso
      rw [List.contains] at hc
      obtain ⟨x, hx, hid⟩ := List.mem_map.mp (List.elem_iff.mp hc)
      have hxc := (List.mem_filter.mp hx).1
      have hxp := (List.mem_filter.mp hx).2
      have hxr : x = r := List.inj_on_of_nodup_map hnd hxc hr hid
      rw [hxr] at hxp
      exact hp hxp
    · rw [eq_false_of_ne_true hc]

/-- The resolve-ids-then-delete-by-id sequence of `delete_documents`, on a
healthy store with unique ids, removes exactly the records matching the
`where` dict and reports their number. -/
lemma get_then_delete (s : StoreState) (w : PyDict)
    (hnd : (s.records.map (fun r => r.id)).Nodup)
    (hg : s.getFails = false) (hd : s.deleteFails = false) :
    (match collectionGet s w with
      | .error _ => (s, 0)
      | .ok ids =>
        if ids.isEmpty then (s, 0)
        else
          match collectionDelete s ids with
          | .error _ => (s, 0)
          | .ok s2 => (s2, ids.length))
      = ({ s with
            records :=
              s.records.filter (fun r => !(matchesWhere w r.metadata)) },
          (s.records.filter (fun r => matchesWhere w r.metadata)).length) := by
  obtain ⟨records, gf, df⟩ := s
  simp only at hg hd hnd
  subst hg
  subst hd
  simp only [collectionGet, Bool.false_eq_true, if_false]
  by_cases hempty : (records.filter (fun r => matchesWhere w r.metadata)) = []
  · rw [hempty]
    have hfe : records.filter (fun r => !(matchesWhere w r.metadata))
        = records := by
      apply List.filter_eq_self.mpr
      intro r hr
      have := List.filter_eq_nil_iff.mp hempty r hr
      simp only [Bool.not_eq_true] at this ⊢
      simp [this]
    simp [hfe]
  · have hne : ((records.filter
        (fun r => matchesWhere w r.metadata)).map (fun r => r.id)).isEmpty
        = false := by
      rw [List.isEmpty_eq_false_iff_exists_mem]
      obtain ⟨x, hx⟩ := List.exists_mem_of_ne_nil _ hempty
      exact ⟨x.id, List.mem_map_of_mem _ hx⟩
    simp only [hne, Bool.false_eq_true, if_false, collectionDelete]
    rw [filter_resolved_ids records hnd
      (fun r => matchesWhere w r.metadata), List.length_map]

/-- Counterexample to C8 as stated: `filename = ""` is falsy in Python, so
`delete_documents(tenant, filename="")` skips the filename filter and
deletes ALL the tenant's records — here it removes tenant A's record whose
stored filename is `"f"`, not `""`, so it does not remove only the records
with the given filename. -/
theorem delete_documents_cex :
    delete_documents ⟨[recA, recB], false, false⟩ "A" (some "")
      = (⟨[recB], false, false⟩, 1) ∧
    dictGet recA.metadata "filename" = some (.s "f") ∧
    MVal.s "f" ≠ MVal.s "" := by
  refine ⟨rfl, rfl, by decide⟩

/-- C8 (amended): on a healthy store with unique record ids,
`delete_documents(tenant, filename=None)` removes all and only that
tenant's records and `delete_documents(tenant, filename=X)` with X
non-empty removes all and only that tenant's records with filename X
(an empty-string X is treated as no filename filter), in each case
returning the number of records removed; it resolves matching ids first
and then deletes by id; when zero records match it returns 0 with the
store unchanged and without error; and when an underlying store call
fails it returns 0 and never raises, leaving the store as it was. -/
theorem delete_documents_contract :
    (∀ (s : StoreState) (uid : String),
      (s.records.map (fun r => r.id)).Nodup →
      s.getFails = false → s.deleteFails = false →
      delete_documents s uid none
        = ({ s with
              records := s.records.filter (fun r =>
                !(matchesWhere [("user_id", .s uid)] r.metadata)) },
            (s.records.filter (fun r =>
              matchesWhere [("user_id", .s uid)] r.metadata)).length)) ∧
    (∀ (s : StoreState) (uid fn : String), fn ≠ "" →
      (s.records.map (fun r => r.id)).Nodup →
      s.getFails = false → s.deleteFails = false →
      delete_documents s uid (some fn)
        = ({ s with
              records := s.records.filter (fun r =>
                !(matchesWhere [("user_id", .s uid), ("filename", .s fn)]
                  r.metadata)) },
            (s.records.filter (fun r =>
              matchesWhere [("user_id", .s uid), ("filename", .s fn)]
                r.metadata)).length)) ∧
    (∀ (s : StoreState) (uid : String) (fn : Option String),
      (∀ r ∈ s.records, matchesWhere (deleteWhere uid fn) r.metadata = false) →
      delete_documents s uid fn = (s, 0)) ∧
    (∀ (s : StoreState) (uid : String) (fn : Option String),
      s.getFails = true ∨ s.deleteFails = true →
      delete_documents s uid fn = (s, 0)) := by
  refine ⟨?_, ?_, ?_, ?_⟩
  · intro s uid hnd hg hd
    have hw : deleteWhere uid none = [("user_id", .s uid)] := rfl
    rw [delete_documents, hw]
    exact get_then_delete s [("user_id", .s uid)] hnd hg hd
  · intro s uid fn hfn hnd hg hd
    have hw : deleteWhere uid (some fn)
        = [("user_id", .s uid), ("filename", .s fn)] := by
      simp [deleteWhere, hfn]
    rw [delete_documents, hw]
    exact get_then_delete s [("user_id", .s uid), ("filename", .s fn)] hnd hg hd
  · intro s uid fn hnom
    rw [delete_documents]
    cases hgf : s.getFails with
    | true => simp [collectionGet, hgf]
    | false =>
      have hfil : s.records.filter
          (fun r => matchesWhere (deleteWhere uid fn) r.metadata) = [] :=
        List.filter_eq_nil_iff.mpr (fun r hr => by simp [hnom r hr])
      simp [collectionGet, hgf, hfil]
  · intro s uid fn hfl
    rw [delete_documents]
    cases hgf : s.getFails with
    | true => simp [collectionGet, hgf]
    | false =>
      have hdf : s.deleteFails = true := by
        rcases hfl with h | h
        · rw [hgf] at h; cases h
        · exact h
      simp only [collectionGet, hgf, Bool.false_eq_true, if_false]
      by_cases hempty : ((s.records.filter
          (fun r => matchesWhere (deleteWhere uid fn) r.metadata)).map
            (fun r => r.id)).isEmpty
      · simp [hempty]
      · simp [hempty, collectionDelete, hdf]

/-- Witness for the amended C8 on a concrete two-tenant store. -/
theorem delete_documents_contract_witness :
    (([recA, recB].map (fun r => r.id)).Nodup ∧
      delete_documents ⟨[recA, recB], false, false⟩ "A" none
        = (⟨[recB], false, false⟩, 1)) ∧
    (("f" : String) ≠ "" ∧
      delete_documents ⟨[recA, recB], false, false⟩ "A" (some "f")
        = (⟨[recB], false, false⟩, 1)) ∧
    delete_documents ⟨[recA, recB], false, false⟩ "C" none
      = (⟨[recA, recB], false, false⟩, 0) ∧
    delete_documents ⟨[recA, recB], true, false⟩ "A" none
      = (⟨[recA, recB], true, false⟩, 0) :=
  ⟨⟨by decide,
      (delete_documents_contract.1 ⟨[recA, recB], false, false⟩ "A"
        (by decide) rfl rfl).trans (by decide)⟩,
    ⟨by decide,
      (delete_documents_contract.2.1 ⟨[recA, recB], false, false⟩ "A" "f"
        (by decide) (by decide) rfl rfl).trans (by decide)⟩,
    delete_documents_contract.2.2.1 ⟨[recA, recB], false, false⟩ "C" none
      (by decide),
    delete_documents_contract.2.2.2 ⟨[recA, recB], true, false⟩ "A" none
      (Or.inl rfl)⟩

/-- The per-question analysis dict produced by `NLPService.analyze_question`
(nlp_service.py lines 112-119), consumed by `RAGService.query`. -/
structure QueryAnalysis where
  question_type : String
  intent : String
  user_level : String
  is_confused : Bool
  needs_explanation : Bool
  key_terms : List String
deriving Repr, DecidableEq

/-- The complexity test of `RAGService.query` (rag_service.py lines 43-47). -/
def is_complex (qa : QueryAnalysis) : Bool :=
  qa.needs_explanation ||
    ["analytical", "explanatory", "calculative"].contains qa.intent ||
    ["why", "how"].contains qa.question_type

/-- `effective_top_k = top_k or (TOP_K_COMPLEX if is_complex else
TOP_K_RESULTS)` (rag_service.py line 49); Python `or` takes the right
operand for `None` and for `0`. -/
def effective_top_k (st : AppSettings) (top_k : Option Nat)
    (qa : QueryAnalysis) : Nat :=
  match top_k with
  | some k =>
    if k ≠ 0 then k
    else if is_complex qa then st.TOP_K_COMPLEX else st.TOP_K_RESULTS
  | none => if is_complex qa then st.TOP_K_COMPLEX else st.TOP_K_RESULTS

/-- One entry of the `sources` list (rag_service.py lines 330-336). -/
structure SourceEntry where
  source_id : Nat
  filename : String
  chunk_id : MVal
  text_preview : String
  relevance_score : Option ℚ
deriving Repr, DecidableEq

/-- The source entry built for one retrieved chunk at 1-based position `k`:
`relevance_score` is `1 - distance` only when `chunk.get('distance')` is
truthy — a distance of `None` AND a distance of `0` both yield `None`. -/
def mkSourceEntry (k : Nat) (c : SearchHit) : SourceEntry :=
  { source_id := k,
    filename := mvalStr (dictGetD c.metadata "filename" (.s "Unknown")),
    chunk_id := dictGetD c.metadata "chunk_id" (.n 0),
    text_preview := c.text.take 200 ++ "...",
    relevance_score :=
      match c.distance with
      | some d => if d = 0 then none else some (1 - d)
      | none => none }

/-- The `enumerate(chunks, 1)` loop of `RAGService._format_sources`. -/
def formatSourcesGo : Nat → List SearchHit → List SourceEntry
  | _, [] => []
  | k, c :: cs => mkSourceEntry k c :: formatSourcesGo (k + 1) cs

/-- `RAGService._format_sources` (rag_service.py lines 325-337). -/
def format_sources (chunks : List SearchHit) : List SourceEntry :=
  formatSourcesGo 1 chunks

/-- The fixed no-relevant-information answer (rag_service.py line 71). -/
def noRelevantInfoMsg : String :=
  "I couldn\x27t find any relevant information in the uploaded documents. Could you rephrase your question or upload relevant documents?"

/-- The prompt of `RAGService._generate_general_knowledge_response`
(rag_service.py lines 139-151). -/
def generalKnowledgePrompt (question : String) (key_terms : List String)
    (user_level : String) : String :=
  "You are a helpful assistant. The user asked: \"" ++ question ++ "\"\n\n"
    ++ "The user seems to be asking about: "
    ++ String.intercalate ", " key_terms ++ "\n\n"
    ++ "However, I don\x27t have specific information about this in the uploaded documents. \n\n"
    ++ "Please provide a helpful general explanation that:\n"
    ++ "1. Acknowledges that the specific document context isn\x27t available\n"
    ++ "2. Provides general knowledge about the topic\n"
    ++ "3. Uses "
    ++ (if user_level = "beginner" then "simple, beginner-friendly language"
        else "appropriate technical language") ++ "\n"
    ++ "4. Suggests that uploading relevant documents would help provide more specific answers\n\n"
    ++ "Be concise but informative."

/-- `RAGService._generate_general_knowledge_response` (lines 137-156): calls
the generator at temperature 0.4, max tokens 800, and falls back to a fixed
message when the generator raises; `llm` maps (prompt, temperature,
max_tokens) to `some` answer or `none` for an exception. -/
def generalKnowledgeResponse (llm : String → ℚ → Nat → Option String)
    (question : String) (key_terms : List String) (user_level : String) :
    String :=
  match llm (generalKnowledgePrompt question key_terms user_level)
      (4 / 10) 800 with
  | some r => r
  | none =>
    "I couldn\x27t find specific information about \x27"
      ++ String.intercalate ", " key_terms
      ++ "\x27 in the uploaded documents. Could you upload relevant documents or rephrase your question?"

/-- `chunks_by_file` of `RAGService._build_context` (lines 116-122):
group the retrieved chunks by filename, preserving first-seen file order
and within-file order. -/
def groupByFilename (chunks : List SearchHit) : List (String × List SearchHit) :=
  chunks.foldl
    (fun acc c =>
      let fn := mvalStr (dictGetD c.metadata "filename" (.s "Unknown"))
      if acc.any (fun p => p.1 == fn) then
        acc.map (fun p => if p.1 == fn then (p.1, p.2 ++ [c]) else p)
      else acc ++ [(fn, [c])])
    []

/-- The per-file inner loop of `_build_context` (lines 130-133): one
labelled part per chunk, with a globally increasing source counter. -/
def contextGroupParts (fn : String) :
    List SearchHit → Nat → List String × Nat
  | [], k => ([], k)
  | c :: cs, k =>
    let rest := contextGroupParts fn cs (k + 1)
    (("[Source " ++ toString k ++ " - " ++ fn ++ "]\n" ++ c.text ++ "\n")
        :: rest.1,
      rest.2)

/-- The outer loop of `_build_context` (lines 128-133). -/
def contextParts : List (String × List SearchHit) → Nat → List String
  | [], _ => []
  | (fn, cs) :: gs, k =>
    let inner := contextGroupParts fn cs k
    (("\n=== Document: " ++ fn ++ " ===\n") :: inner.1)
      ++ contextParts gs inner.2

/-- `RAGService._build_context` (rag_service.py lines 113-135). -/
def build_context (chunks : List SearchHit) : String :=
  String.intercalate "\n" (contextParts (groupByFilename chunks) 1)

/-- The answer-and-sources dict returned by `RAGService.query` (the
`metadata.chunks_retrieved` field of the metadata dict is modelled
directly; `query_analysis` and `question` are the inputs themselves). -/
structure RagResult where
  answer : String
  sources : List SourceEntry
  chunks_retrieved : Nat
deriving Repr, DecidableEq

/-- Steps 1-5 of `RAGService.query` after retrieval (rag_service.py lines
59-111): the empty-retrieval branches, else context building, prompt
composition (`mkPrompt` abstracts `_create_enhanced_rag_prompt`, pure
string templating none of whose content the claims touch), the
temperature/token budget, the generator call (whose exception propagates on
this path — `Except.error`), and source formatting. -/
def ragAfterRetrieve (analysis : QueryAnalysis)
    (llm : String → ℚ → Nat → Option String)
    (mkPrompt : String → String → QueryAnalysis → String)
    (question : String) (retrieved : List SearchHit) :
    Except String RagResult :=
  if retrieved.isEmpty then
    if analysis.needs_explanation && !analysis.key_terms.isEmpty then
      Except.ok
        { answer := generalKnowledgeResponse llm question analysis.key_terms
            analysis.user_level,
          sources := [], chunks_retrieved := 0 }
    else
      Except.ok
        { answer := noRelevantInfoMsg, sources := [], chunks_retrieved := 0 }
  else
    let context := build_context retrieved
    let prompt := mkPrompt question context analysis
    let temperature : ℚ :=
      if is_complex analysis then 2 / 10
      else if analysis.user_level = "beginner" then 4 / 10 else 3 / 10
    let maxTokens : Nat :=
      if analysis.needs_explanation then 2500
      else if is_complex analysis then 2000 else 1500
    match llm prompt temperature maxTokens with
    | none => Except.error "generation failed"
    | some answer =>
      Except.ok
        { answer := answer, sources := format_sources retrieved,
          chunks_retrieved := retrieved.length }

/-- `RAGService.query` (rag_service.py lines 21-111) given the Step-0
analysis: compute the effective retrieval width, retrieve (`searchFn`
abstracts `self.vector_db.search(question, top_k=..., user_id=...)` as a
function of the width), then the post-retrieval steps. -/
def ragQuery (st : AppSettings) (analysis : QueryAnalysis)
    (llm : String → ℚ → Nat → Option String)
    (mkPrompt : String → String → QueryAnalysis → String)
    (searchFn : Nat → List SearchHit)
    (question : String) (top_k : Option Nat) : Except String RagResult :=
  ragAfterRetrieve analysis llm mkPrompt question
    (searchFn (effective_top_k st top_k analysis))

def hitZero : SearchHit := ⟨"id0", "t", [], some 0⟩

def hitHalf : SearchHit := ⟨"id1", "t", [], some (1 / 2)⟩

/-- Counterexample to C6 as stated: a retrieved chunk whose distance is
defined and equal to 0 (a perfect match) is formatted with
`relevance_score = None`, not `1 - 0 = 1` — `if chunk.get('distance')` is
falsy for `0.0`. -/
theorem relevance_score_cex :
    (format_sources [hitZero]).map SourceEntry.relevance_score = [none] ∧
    hitZero.distance = some 0 ∧
    (none : Option ℚ) ≠ some (1 - 0) := by
  refine ⟨rfl, rfl, by decide⟩

lemma formatSourcesGo_length :
    ∀ (cs : List SearchHit) (k : Nat),
      (formatSourcesGo k cs).length = cs.length := by
  intro cs
  induction cs with
  | nil => intro k; rfl
  | cons c cs ih =>
    intro k
    rw [formatSourcesGo, List.length_cons, List.length_cons, ih]

lemma zip_formatSourcesGo :
    ∀ (cs : List SearchHit) (k : Nat) (p : SearchHit × SourceEntry),
      p ∈ cs.zip (formatSourcesGo k cs) → ∃ j, p.2 = mkSourceEntry j p.1 := by
  intro cs
  induction cs with
  | nil =>
    intro k p h
    simp [formatSourcesGo] at h
  | cons c cs ih =>
    intro k p h
    rw [formatSourcesGo, List.zip_cons_cons] at h
    rcases List.mem_cons.mp h with rfl | h1
    · exact ⟨k, rfl⟩
    · exact ih (k + 1) p h1

/-- C6 (amended): `_format_sources` emits one source per retrieved chunk;
for each aligned pair, `relevance_score = 1 - distance` whenever the
distance is defined AND non-zero, and is null when the distance is
undefined OR equal to 0 (the Python truthiness test conflates the two). -/
theorem relevance_score_null_iff (chunks : List SearchHit) :
    (format_sources chunks).length = chunks.length ∧
    ∀ p ∈ chunks.zip (format_sources chunks),
      (∀ d : ℚ, p.1.distance = some d → d ≠ 0 →
        p.2.relevance_score = some (1 - d)) ∧
      ((p.1.distance = none ∨ p.1.distance = some 0) →
        p.2.relevance_score = none) := by
  constructor
  · exact formatSourcesGo_length chunks 1
  · intro p hp
    obtain ⟨j, hj⟩ := zip_formatSourcesGo chunks 1 p hp
    rw [hj]
    constructor
    · intro d hd hdne
      simp [mkSourceEntry, hd, hdne]
    · intro hcase
      rcases hcase with h | h <;> simp [mkSourceEntry, h]

/-- Witness for the amended C6 at a chunk of distance 1/2. -/
theorem relevance_score_null_iff_witness :
    (format_sources [hitHalf]).length = [hitHalf].length ∧
    ((∀ d : ℚ, hitHalf.distance = some d → d ≠ 0 →
        (mkSourceEntry 1 hitHalf).relevance_score = some (1 - d)) ∧
      ((hitHalf.distance = none ∨ hitHalf.distance = some 0) →
        (mkSourceEntry 1 hitHalf).relevance_score = none)) :=
  ⟨(relevance_score_null_iff [hitHalf]).1,
    (relevance_score_null_iff [hitHalf]).2 (hitHalf, mkSourceEntry 1 hitHalf)
      (List.mem_singleton.mpr rfl)⟩

/-- C7: with no caller-supplied `top_k`, the RAG query path retrieves at
width `TOP_K_COMPLEX` exactly when `is_complex` holds and at width
`TOP_K_RESULTS` otherwise, where `is_complex` is `needs_explanation OR
intent in {analytical, explanatory, calculative} OR question_type in
{why, how}`, and the configured defaults are 12 and 8. -/
theorem rag_retrieval_width (st : AppSettings) (analysis : QueryAnalysis)
    (llm : String → ℚ → Nat → Option String)
    (mkPrompt : String → String → QueryAnalysis → String)
    (searchFn : Nat → List SearchHit) (question : String) :
    effective_top_k st none analysis
      = (if is_complex analysis then st.TOP_K_COMPLEX else st.TOP_K_RESULTS) ∧
    (is_complex analysis = true ↔
      (analysis.needs_explanation = true ∨
        analysis.intent
          ∈ (["analytical", "explanatory", "calculative"] : List String) ∨
        analysis.question_type ∈ (["why", "how"] : List String))) ∧
    defaultSettings.TOP_K_COMPLEX = 12 ∧
    defaultSettings.TOP_K_RESULTS = 8 ∧
    ragQuery st analysis llm mkPrompt searchFn question none
      = ragAfterRetrieve analysis llm mkPrompt question
          (searchFn
            (if is_complex analysis then st.TOP_K_COMPLEX
              else st.TOP_K_RESULTS)) := by
  refine ⟨rfl, ?_, rfl, rfl, rfl⟩
  simp only [is_complex, Bool.or_eq_true, List.contains, List.elem_eq_mem,
    decide_eq_true_iff, List.mem_cons, List.not_mem_nil, or_false]
  tauto

def qaW : QueryAnalysis :=
  { question_type := "what", intent := "explanatory",
    user_level := "beginner", is_confused := false,
    needs_explanation := true, key_terms := ["x"] }

/-- C9: when retrieval returns no chunks, the RAG query path returns
without error; the answer is the generator-backed general-knowledge
fallback exactly when `needs_explanation` holds and `key_terms` is
non-empty, and the fixed no-relevant-information message otherwise; in
both branches `sources` is empty and `chunks_retrieved` is 0. -/
theorem rag_empty_retrieval (st : AppSettings) (analysis : QueryAnalysis)
    (llm : String → ℚ → Nat → Option String)
    (mkPrompt : String → String → QueryAnalysis → String)
    (searchFn : Nat → List SearchHit) (question : String)
    (top_k : Option Nat)
    (hret : searchFn (effective_top_k st top_k analysis) = []) :
    ragQuery st analysis llm mkPrompt searchFn question top_k
      = Except.ok
          { answer :=
              if analysis.needs_explanation && !analysis.key_terms.isEmpty
              then generalKnowledgeResponse llm question analysis.key_terms
                analysis.user_level
              else noRelevantInfoMsg,
            sources := [], chunks_retrieved := 0 } ∧
    ((analysis.needs_explanation && !analysis.key_terms.isEmpty) = true ↔
      (analysis.needs_explanation = true ∧ analysis.key_terms ≠ [])) := by
  constructor
  · rw [ragQuery, hret, ragAfterRetrieve]
    simp only [List.isEmpty_nil, if_true]
    by_cases hb :
        (analysis.needs_explanation && !analysis.key_terms.isEmpty) = true
    · rw [if_pos hb, if_pos hb]
    · rw [if_neg hb, if_neg hb]
  · simp [Bool.and_eq_true, List.isEmpty_iff]

/-- Witness for C9: a beginner explanatory question with key terms against
an empty store takes the general-knowledge branch. -/
theorem rag_empty_retrieval_witness :
    ((fun _ : Nat => ([] : List SearchHit))
        (effective_top_k defaultSettings none qaW) = []) ∧
    (ragQuery defaultSettings qaW (fun _ _ _ => none) (fun _ _ _ => "")
        (fun _ => []) "q" none
      = Except.ok
          { answer :=
              if qaW.needs_explanation && !qaW.key_terms.isEmpty
              then generalKnowledgeResponse (fun _ _ _ => none) "q"
                qaW.key_terms qaW.user_level
              else noRelevantInfoMsg,
            sources := [], chunks_retrieved := 0 } ∧
      ((qaW.needs_explanation && !qaW.key_terms.isEmpty) = true ↔
        (qaW.needs_explanation = true ∧ qaW.key_terms ≠ []))) :=
  ⟨rfl,
    rag_empty_retrieval defaultSettings qaW (fun _ _ _ => none)
      (fun _ _ _ => "") (fun _ => []) "q" none rfl⟩
